import Mathlib

/-!
Verification of the rhythm-game core of the repository: the beat chart
builder (`buildChartEasy`) and the timing/judgment engine (frame tick,
lane press, pause/resume, combo/multiplier state) from the gym scene
component.

Modelling choices:
* JavaScript `number` is modelled as `ℚ`.  All constants of the source
  (`0.44`, `0.6`, `0.17`, `0.22`, `0.06`, `2.35`, `-999`, `60 / bpm`, …)
  are exact decimal fractions, so rational arithmetic reproduces the
  source computations exactly whenever the float computation is exact,
  and the generic theorems quantify over all rational inputs.
* The source derives its skip decisions and lane picks from
  `Math.sin`-based hashes of the beat index / note counter
  (`(Math.sin((beatIndex+1)*123.456)+1)/2 < 0.55` and
  `Math.floor(frac(Math.sin(i*777.77)*10000)*4)`).  A transcendental
  IEEE-754 computation has no kernel-computable counterpart, so the
  builder is parameterised over the two decision functions
  `skip : Nat → Bool` and `seededLane : Nat → Fin 4`; the universal
  theorems hold for every choice of these functions, which subsumes the
  sine hash.  For concrete counterexamples, `skipSin` and
  `seededLaneSin` tabulate the double-precision values of the source's
  sine hashes on the index range the counterexamples touch.
-/

namespace BirthdayCake

/-- A scheduled hit event.  Source: `type Note = { id: string; lane: Lane;
time: number; hit?: boolean }` with `type Lane = 0 | 1 | 2 | 3`. -/
structure Note where
  id : String
  lane : Fin 4
  time : ℚ
  hit : Bool := false
deriving DecidableEq, Repr

/-- The loop state of `buildChartEasy`: the accumulated note list, the
lane of the previously emitted note (`last`), the note counter (`i`) and
the time of the previously emitted note (`lastTime`, initially `-999`). -/
structure BuildState where
  notes : List Note
  last : Option (Fin 4)
  i : Nat
  lastTime : ℚ
deriving DecidableEq, Repr

/-- One iteration of the `for` loop of `buildChartEasy` at beat index
`k`, where the loop variable is `t = start + k * beat` (the source
accumulates `t += beat` starting from `t = Math.max(0, offset)`).
Mirrors the source line by line: the pseudo-random skip decision, the
`t - lastTime < 0.44` minimum-gap guard, the lane pick with rotation by
one lane on a repeat, the note push, and the half-beat "double" note
every 32 beats when it still fits before the `duration - 0.6` tail. -/
def chartStep (beat dur start : ℚ) (skip : Nat → Bool) (seededLane : Nat → Fin 4)
    (s : BuildState) (k : Nat) : BuildState :=
  let t := start + k * beat
  if skip k then s
  else if t - s.lastTime < 0.44 then s
  else
    let lane0 := seededLane s.i
    let lane := if s.last = some lane0 then lane0 + 1 else lane0
    let s1 : BuildState :=
      { notes := s.notes ++ [{ id := "n" ++ toString s.i, lane := lane, time := t }],
        last := some lane, i := s.i + 1, lastTime := t }
    if 0 < k ∧ k % 32 = 0 ∧ t + beat / 2 < dur - 0.6 then
      { notes := s1.notes ++ [{ id := "n" ++ toString s1.i, lane := lane + 2, time := t + beat / 2 }],
        last := some (lane + 2), i := s1.i + 1, lastTime := t + beat / 2 }
    else s1

/-- The `buildChartEasy` loop after its first `n` iterations (beat
indices `0, …, n-1`). -/
def buildLoop (beat dur start : ℚ) (skip : Nat → Bool) (seededLane : Nat → Fin 4) :
    Nat → BuildState
  | 0 => { notes := [], last := none, i := 0, lastTime := -999 }
  | n + 1 => chartStep beat dur start skip seededLane
      (buildLoop beat dur start skip seededLane n) n

/-- Number of iterations of the source loop
`for (let t = start; t < duration - 0.6; t += beat)`: since `beat > 0`,
the loop body runs exactly for the beat indices `k` with
`start + k * beat < dur - 0.6`, i.e. for `k < (dur - 0.6 - start) / beat`. -/
def numBeats (start beat dur : ℚ) : Nat := Nat.ceil ((dur - 0.6 - start) / beat)

/-- The chart builder `buildChartEasy(bpm, offset, duration)` from the source, with the two
sine-hash decision functions abstracted (see the file header).  The beat
period is `60 / Math.max(1, bpm)` and the walk starts at
`Math.max(0, offset)`. -/
def buildChartEasy (skip : Nat → Bool) (seededLane : Nat → Fin 4)
    (bpm offset dur : ℚ) : List Note :=
  let beat := 60 / max 1 bpm
  let start := max 0 offset
  (buildLoop beat dur start skip seededLane (numBeats start beat dur)).notes

/-- Skip decisions of the source's sine hash, tabulated: entry `k` is the
double-precision value of `((Math.sin((k+1)*123.456)+1)/2) < 0.55` for
beat indices `k = 0, …, 39` (`true` means the beat is skipped).  Indices
beyond the table (never consulted by the concrete charts below) default
to `true`. -/
def skipSinTable : List Bool :=
  [true, false, true, true, false, true, true, false, true, true,
   false, true, false, false, true, false, false, true, false, true,
   true, false, true, true, false, true, true, false, true, false,
   false, true, false, false, true, false, true, true, false, true]

/-- The source's skip decision `(Math.sin((k+1)*123.456)+1)/2 < 0.55`,
via the table `skipSinTable`. -/
def skipSin (k : Nat) : Bool := skipSinTable.getD k true

/-- Lane picks of the source's sine hash, tabulated: entry `i` is the
double-precision value of
`Math.floor((Math.sin(i*777.77)*10000 - Math.floor(…))*4)` for note
counters `i = 0, …, 39`. -/
def laneSinTable : List (Fin 4) :=
  [0, 3, 2, 2, 2, 0, 0, 2, 1, 2, 3, 1, 3, 2, 2, 1, 3, 2, 3, 2,
   2, 0, 0, 1, 1, 2, 2, 1, 0, 2, 2, 2, 0, 2, 3, 2, 3, 2, 0, 3]

/-- The source's lane pick `seededLane(i)`, via the table `laneSinTable`. -/
def seededLaneSin (i : Nat) : Fin 4 := laneSinTable.getD i 0

/-- The relation that actually holds between consecutive notes of a
chart built with beat period `beat`: strictly increasing times, distinct
lanes, and a gap that is either at least the `0.44` minimum or exactly
the half-beat of an injected "double" note. -/
def gapOk (beat : ℚ) (a b : Note) : Prop :=
  a.time < b.time ∧ a.lane ≠ b.lane ∧
    (0.44 ≤ b.time - a.time ∨ b.time - a.time = beat / 2)

/-- Loop invariant of `buildChartEasy` before processing beat index `k`:
the last emitted time is below the upcoming loop time, the `last` lane
and `lastTime` registers agree with the final note of the list, and
consecutive notes satisfy `gapOk`. -/
def stateInv (beat start : ℚ) (k : Nat) (s : BuildState) : Prop :=
  s.lastTime < start + (k : ℚ) * beat
  ∧ (∀ n, s.notes.getLast? = some n → n.time = s.lastTime ∧ s.last = some n.lane)
  ∧ List.Chain' (gapOk beat) s.notes

/-- Relation between three consecutive chart notes: when the middle note
follows its predecessor by less than the 0.44 s minimum gap (which in a
built chart only an injected double note does), the note after it is
again at least 0.44 s away. -/
def tripleOk (a b c : Note) : Prop :=
  b.time - a.time < 0.44 → 0.44 ≤ c.time - b.time

/-- Predicate `tripleOk` holding over every window of three consecutive
notes of a list. -/
def chain3 : List Note → Prop
  | a :: b :: c :: l => tripleOk a b c ∧ chain3 (b :: c :: l)
  | _ => True

/-- Hit tolerance: `const HIT = 0.17` in `attemptHit`. -/
def HIT_TOL : ℚ := 0.17

/-- Miss-expiry tolerance: the frame loop expires head notes with
`notes[0].time < t - 0.22`. -/
def MISS_TOL : ℚ := 0.22

/-- Render lead time: `const travel = 2.35` in the frame loop. -/
def TRAVEL : ℚ := 2.35

/-- Constant `STREAK_THRESHOLD = 18` from the source. -/
def STREAK_THRESHOLD : Nat := 18

/-- The multiplier, recomputed from the current combo exactly as the
source memo does (`combo >= 18 → 16`, `>= 14 → 8`, `>= 10 → 4`,
`>= 6 → 2`, else `1`). -/
def multiplier (combo : Nat) : Nat :=
  if 18 ≤ combo then 16
  else if 14 ≤ combo then 8
  else if 10 ≤ combo then 4
  else if 6 ≤ combo then 2
  else 1

/-- The derived streak-mode flag: `combo >= STREAK_THRESHOLD`. -/
def streakMode (combo : Nat) : Bool := decide (STREAK_THRESHOLD ≤ combo)

/-- Modelled from the spec (the multiplier bands as the specification
words them, for comparison with the source's `multiplier`): "banded
thresholds, e.g. combo≥18→16x, ≥14→8x, ≥10→4x, ≥6→2x, else 1x". -/
def multiplierSpec (combo : Nat) : Nat :=
  if 18 ≤ combo then 16
  else if 14 ≤ combo then 8
  else if 10 ≤ combo then 4
  else if 6 ≤ combo then 2
  else 1

/-- JavaScript `Math.round`: the floor of `x + 1/2`. -/
def jsRound (x : ℚ) : ℤ := Int.floor (x + 1/2)

/-- A judgment event emitted to the renderer on a press: a "perfect"
popup/burst carrying the matched note, or a "miss" popup. -/
inductive Judgment where
  | success (n : Note)
  | fail
deriving DecidableEq, Repr

/-- The engine state: the pending note queue (`notesRef`), the
score/combo/hits/misses counters, the song clock (`songTimeRef`), the
pause anchor (`pausedSongTimeRef`), the audio-clock start reference
(`startAcTimeRef`), the track duration, the `ready`/`started`/`paused`/
`ended` flags, whether a buffer source is currently playing
(`sourceRef` non-null), whether the audio context/gain/buffer exist
(`acRef`/`gainRef`/`bufferRef` non-null), and the published visible
window (`renderNotes`). -/
structure EngineState where
  notes : List Note
  score : ℤ
  combo : Nat
  hits : Nat
  misses : Nat
  songTime : ℚ
  pausedSongTime : ℚ
  startAcTime : ℚ
  duration : ℚ
  ready : Bool
  started : Bool
  paused : Bool
  ended : Bool
  sourceActive : Bool
  hasAudio : Bool
  renderNotes : List Note
deriving DecidableEq, Repr

/-- The queue scan of `attemptHit`: walk the pending queue in order,
stop (`break`) at the first note with `time > t + HIT`, skip notes of
other lanes (`continue`), skip in-lane notes outside the tolerance, and
return the first in-lane note with `|time - t| <= HIT` together with the
queue with that note spliced out. -/
def findHit (lane : Fin 4) (t : ℚ) : List Note → Option (Note × List Note)
  | [] => none
  | n :: rest =>
    if t + HIT_TOL < n.time then none
    else if n.lane ≠ lane then
      (findHit lane t rest).map fun p => (p.1, n :: p.2)
    else if |n.time - t| ≤ HIT_TOL then some (n, rest)
    else (findHit lane t rest).map fun p => (p.1, n :: p.2)

/-- The property of a queue note that a press on `lane` at song time `t`
can consume: same lane and scheduled time within the hit tolerance. -/
def hitMatch (lane : Fin 4) (t : ℚ) (n : Note) : Bool :=
  decide (n.lane = lane) && decide (|n.time - t| ≤ HIT_TOL)

/-- Press handler `attemptHit(lane)`: no-op unless `ready && !paused && !ended`;
otherwise scan the queue for a matching note.  On a match, splice it
out, add `Math.max(10, Math.round(140 * (1 - dt / HIT))) * multiplier`
to the score, increment hits and combo, and emit a success judgment
(the source also sets `n.hit = true` on the spliced-out copy).  On no
match, reset combo to 0, increment misses, and emit a fail judgment. -/
def attemptHit (lane : Fin 4) (s : EngineState) : EngineState × Option Judgment :=
  if !s.ready || s.paused || s.ended then (s, none)
  else
    match findHit lane s.songTime s.notes with
    | some p =>
      let dt := |p.1.time - s.songTime|
      let base : ℤ := max 10 (jsRound (140 * (1 - dt / HIT_TOL)))
      ({ s with notes := p.2,
                hits := s.hits + 1,
                combo := s.combo + 1,
                score := s.score + base * (multiplier s.combo : ℤ) },
       some (Judgment.success p.1))
    | none =>
      ({ s with combo := 0, misses := s.misses + 1 }, some Judgment.fail)

/-- The miss-expiry `while` loop of the frame tick: shift notes off the
head of the queue while `notes[0].time < t - 0.22`, returning the
expired prefix and the remaining queue. -/
def expireSplit (t : ℚ) : List Note → List Note × List Note
  | [] => ([], [])
  | n :: rest =>
    if n.time < t - MISS_TOL then
      let p := expireSplit t rest
      (n :: p.1, p.2)
    else ([], n :: rest)

/-- One frame of the `requestAnimationFrame` loop, fed the current
audio-clock reading `c`.  While paused only the displayed song time is
refreshed; otherwise the song time becomes
`Math.max(0, c - startAcTime)`, expired unhit head notes each reset the
combo to 0 and increment the miss counter, and the visible window
(`time` within `[t - 0.35, t + travel]`) is published. -/
def tick (c : ℚ) (s : EngineState) : EngineState :=
  if !s.started then s
  else if s.paused then { s with songTime := s.pausedSongTime }
  else if !s.hasAudio then s
  else
    let t := max 0 (c - s.startAcTime)
    let p := expireSplit t s.notes
    let missed := (p.1.filter fun n => !n.hit).length
    { s with songTime := t,
             notes := p.2,
             combo := if 0 < missed then 0 else s.combo,
             misses := s.misses + missed,
             renderNotes := p.2.filter fun n =>
               decide (t - 0.35 ≤ n.time) && decide (n.time ≤ t + TRAVEL) }

/-- Source helper `clamp(v, lo, hi) = Math.max(lo, Math.min(hi, v))`. -/
def clamp (v lo hi : ℚ) : ℚ := max lo (min hi v)

/-- Source restart `startSourceAt(offsetSeconds)` at audio-clock time `c`: fails
(returns `false`) when the audio context, gain node or buffer is
missing; otherwise schedules playback at `c + 0.06` and re-anchors the
clock reference to `startAt - offsetSeconds`. -/
def startSourceAt (c offsetSeconds : ℚ) (s : EngineState) : Option EngineState :=
  if !s.hasAudio then none
  else some { s with startAcTime := c + 0.06 - offsetSeconds, sourceActive := true }

/-- Pause handler `pauseGame()`: no-op unless started, not ended, not paused, and a
source is playing; otherwise record the current song time in the pause
anchor, raise the paused flag, and stop the source. -/
def pauseGame (s : EngineState) : EngineState :=
  if !s.started || s.ended then s
  else if s.paused then s
  else if !s.sourceActive then s
  else { s with pausedSongTime := s.songTime, paused := true, sourceActive := false }

/-- Resume handler `resumeGame()` at audio-clock time `c`: no-op unless started, not
ended, paused, with audio available; otherwise restart the source at the
clamped pause anchor (re-anchoring the clock reference) and clear the
paused flag. -/
def resumeGame (c : ℚ) (s : EngineState) : EngineState :=
  if !s.started || s.ended then s
  else if !s.paused then s
  else if !s.hasAudio then s
  else
    match startSourceAt c (clamp s.pausedSongTime 0 (max 0 (s.duration - 0.01))) s with
    | none => s
    | some s1 => { s1 with paused := false, ready := true }

/-- A concrete running engine state used by the closed witnesses below:
one pending note at `t = 2` in lane 0, song clock at `2.05` s. -/
def sampleState : EngineState :=
  { notes := [{ id := "n0", lane := 0, time := 2 }],
    score := 0, combo := 0, hits := 0, misses := 0,
    songTime := 41/20, pausedSongTime := 0, startAcTime := 0,
    duration := 10, ready := true, started := true, paused := false,
    ended := false, sourceActive := true, hasAudio := true, renderNotes := [] }

lemma fin4_ne_add_one : ∀ a : Fin 4, a ≠ a + 1 := by decide

lemma fin4_ne_add_two : ∀ a : Fin 4, a ≠ a + 2 := by decide

lemma stateInv_step (beat dur start : ℚ) (skip : Nat → Bool) (seededLane : Nat → Fin 4)
    (hbeat : 0 < beat) (k : Nat) (s : BuildState) (h : stateInv beat start k s) :
    stateInv beat start (k + 1) (chartStep beat dur start skip seededLane s k) := by
  obtain ⟨h1, h2, h3⟩ := h
  have hcast : ((k + 1 : Nat) : ℚ) = (k : ℚ) + 1 := by push_cast; ring
  have hstep : start + (k : ℚ) * beat < start + ((k + 1 : Nat) : ℚ) * beat := by
    rw [hcast]; nlinarith
  simp only [chartStep]
  by_cases hskip : skip k = true
  · rw [if_pos hskip]
    exact ⟨h1.trans hstep, h2, h3⟩
  · rw [if_neg hskip]
    by_cases hgap : start + (k : ℚ) * beat - s.lastTime < 0.44
    · rw [if_pos hgap]
      exact ⟨h1.trans hstep, h2, h3⟩
    · rw [if_neg hgap]
      have hgap' : (0.44 : ℚ) ≤ start + (k : ℚ) * beat - s.lastTime := not_lt.mp hgap
      have hlaneok : ∀ x, s.notes.getLast? = some x →
          x.lane ≠ (if s.last = some (seededLane s.i) then seededLane s.i + 1
            else seededLane s.i) := by
        intro x hx
        obtain ⟨-, hxl⟩ := h2 x hx
        by_cases hc : s.last = some (seededLane s.i)
        · rw [if_pos hc]
          have he : x.lane = seededLane s.i := by
            rw [hxl] at hc; injection hc
          rw [he]
          exact fin4_ne_add_one _
        · rw [if_neg hc]
          intro hcontra
          exact hc (by rw [hxl, hcontra])
      have hrel : ∀ x, s.notes.getLast? = some x →
          gapOk beat x
            { id := "n" ++ toString s.i,
              lane := if s.last = some (seededLane s.i) then seededLane s.i + 1
                else seededLane s.i,
              time := start + (k : ℚ) * beat, hit := false } := by
        intro x hx
        obtain ⟨hxt, -⟩ := h2 x hx
        refine ⟨?_, hlaneok x hx, Or.inl ?_⟩
        · show x.time < start + (k : ℚ) * beat
          rw [hxt]; linarith
        · show (0.44 : ℚ) ≤ start + (k : ℚ) * beat - x.time
          rw [hxt]; linarith
      by_cases hdouble : 0 < k ∧ k % 32 = 0 ∧ start + (k : ℚ) * beat + beat / 2 < dur - 0.6
      · rw [if_pos hdouble]
        refine ⟨?_, ?_, ?_⟩
        · show start + (k : ℚ) * beat + beat / 2 < start + ((k + 1 : Nat) : ℚ) * beat
          rw [hcast]; nlinarith
        · intro n hn
          rw [List.getLast?_concat] at hn
          cases hn
          exact ⟨rfl, rfl⟩
        · show List.Chain' (gapOk beat) (_ ++ _ ++ _)
          rw [List.append_assoc, List.singleton_append, List.chain'_append]
          refine ⟨h3, ?_, ?_⟩
          · simp only [List.chain'_cons, List.chain'_singleton, and_true]
            exact ⟨by linarith, fin4_ne_add_two _, Or.inr (by ring)⟩
          · intro x hx y hy
            simp only [List.head?_cons, Option.mem_def, Option.some.injEq] at hy
            rw [Option.mem_def] at hx
            subst hy
            exact hrel x hx
      · rw [if_neg hdouble]
        refine ⟨?_, ?_, ?_⟩
        · exact hstep
        · intro n hn
          rw [List.getLast?_concat] at hn
          cases hn
          exact ⟨rfl, rfl⟩
        · show List.Chain' (gapOk beat) (_ ++ _)
          rw [List.chain'_append]
          refine ⟨h3, List.chain'_singleton _, ?_⟩
          intro x hx y hy
          simp only [List.head?_cons, Option.mem_def, Option.some.injEq] at hy
          rw [Option.mem_def] at hx
          subst hy
          exact hrel x hx

lemma stateInv_buildLoop (beat dur start : ℚ) (skip : Nat → Bool) (seededLane : Nat → Fin 4)
    (hbeat : 0 < beat) (hstart : 0 ≤ start) (n : Nat) :
    stateInv beat start n (buildLoop beat dur start skip seededLane n) := by
  induction n with
  | zero =>
    refine ⟨?_, ?_, ?_⟩
    · show (-999 : ℚ) < start + (0 : ℚ) * beat
      linarith
    · intro n hn
      simp [buildLoop] at hn
    · exact List.chain'_nil
  | succ n ih =>
    exact stateInv_step beat dur start skip seededLane hbeat n _ ih

/-- Consecutive notes of every chart satisfy `gapOk`: strictly increasing
times, distinct lanes, and gaps that are at least `0.44` except for the
exact half-beat of an injected double note. -/
lemma buildChartEasy_chain (skip : Nat → Bool) (seededLane : Nat → Fin 4)
    (bpm offset dur : ℚ) :
    List.Chain' (gapOk (60 / max 1 bpm)) (buildChartEasy skip seededLane bpm offset dur) := by
  have hbeat : (0 : ℚ) < 60 / max 1 bpm :=
    div_pos (by norm_num) (lt_of_lt_of_le one_pos (le_max_left 1 bpm))
  have hstart : (0 : ℚ) ≤ max 0 offset := le_max_left 0 offset
  exact (stateInv_buildLoop (60 / max 1 bpm) dur (max 0 offset) skip seededLane
    hbeat hstart (numBeats (max 0 offset) (60 / max 1 bpm) dur)).2.2

set_option maxHeartbeats 4000000 in
/-- Evaluation of the chart for detected bpm 120, offset 0, duration 17 s,
with the source's sine-hash decisions: beat period `0.5`, 33 loop
iterations, and an injected double note at beat index 32 (`t = 16`,
double at `t = 16.25`). -/
lemma chart_120_0_17_eval :
    buildChartEasy skipSin seededLaneSin 120 0 17 =
      [{ id := "n0", lane := 0, time := 1/2 }, { id := "n1", lane := 3, time := 2 },
       { id := "n2", lane := 2, time := 7/2 }, { id := "n3", lane := 3, time := 5 },
       { id := "n4", lane := 2, time := 6 }, { id := "n5", lane := 0, time := 13/2 },
       { id := "n6", lane := 1, time := 15/2 }, { id := "n7", lane := 2, time := 8 },
       { id := "n8", lane := 1, time := 9 }, { id := "n9", lane := 2, time := 21/2 },
       { id := "n10", lane := 3, time := 12 }, { id := "n11", lane := 1, time := 27/2 },
       { id := "n12", lane := 3, time := 29/2 }, { id := "n13", lane := 2, time := 15 },
       { id := "n14", lane := 3, time := 16 }, { id := "n15", lane := 1, time := 65/4 }] := by
  have hn : numBeats (max 0 (0 : ℚ)) (60 / max 1 (120 : ℚ)) 17 = 33 := by
    rw [numBeats, Nat.ceil_eq_iff (by norm_num)]
    norm_num
  rw [buildChartEasy, hn]
  norm_num [buildLoop, chartStep, skipSin, skipSinTable, seededLaneSin, laneSinTable]
  decide

lemma chain3_tail : ∀ (x : Note) (rest : List Note), chain3 (x :: rest) → chain3 rest := by
  intro x rest h
  cases rest with
  | nil => trivial
  | cons b l' =>
    cases l' with
    | nil => trivial
    | cons c l'' => exact h.2

lemma chain3_concat_ge : ∀ (l : List Note) (x : Note), chain3 l →
    (∀ b, l.getLast? = some b → 0.44 ≤ x.time - b.time) →
    chain3 (l ++ [x]) := by
  intro l
  induction l with
  | nil => intro x _ _; trivial
  | cons a rest ih =>
    intro x h hx
    cases rest with
    | nil => trivial
    | cons b l' =>
      cases l' with
      | nil =>
        exact ⟨fun _ => hx b rfl, trivial⟩
      | cons c l'' =>
        refine ⟨h.1, ?_⟩
        exact ih x h.2 fun b' hb' => hx b' (by rw [List.getLast?_cons_cons]; exact hb')

lemma chain3_concat_prev : ∀ (l : List Note) (x y : Note),
    chain3 (l ++ [x]) →
    (∀ b, l.getLast? = some b → ¬(x.time - b.time < 0.44)) →
    chain3 ((l ++ [x]) ++ [y]) := by
  intro l
  induction l with
  | nil => intro x y _ _; trivial
  | cons a rest ih =>
    intro x y h hb
    cases rest with
    | nil =>
      exact ⟨fun hlt => absurd hlt (hb a rfl), trivial⟩
    | cons b l' =>
      cases l' with
      | nil =>
        exact ⟨h.1, fun hlt => absurd hlt (hb b rfl), trivial⟩
      | cons c l'' =>
        refine ⟨h.1, ?_⟩
        exact ih x y h.2 fun b' hb' => hb b' (by rw [List.getLast?_cons_cons]; exact hb')

lemma chain3_buildLoop (beat dur start : ℚ) (skip : Nat → Bool) (seededLane : Nat → Fin 4)
    (hbeat : 0 < beat) (hstart : 0 ≤ start) :
    ∀ n, chain3 (buildLoop beat dur start skip seededLane n).notes := by
  intro n
  induction n with
  | zero => trivial
  | succ n ih =>
    obtain ⟨h1, h2, h3⟩ := stateInv_buildLoop beat dur start skip seededLane hbeat hstart n
    show chain3 (chartStep beat dur start skip seededLane
      (buildLoop beat dur start skip seededLane n) n).notes
    simp only [chartStep]
    by_cases hskip : skip n = true
    · rw [if_pos hskip]; exact ih
    · rw [if_neg hskip]
      by_cases hgap : start + (n : ℚ) * beat -
          (buildLoop beat dur start skip seededLane n).lastTime < 0.44
      · rw [if_pos hgap]; exact ih
      · rw [if_neg hgap]
        have hgap' : (0.44 : ℚ) ≤ start + (n : ℚ) * beat -
            (buildLoop beat dur start skip seededLane n).lastTime := not_lt.mp hgap
        have hx : ∀ b, (buildLoop beat dur start skip seededLane n).notes.getLast? = some b →
            (0.44 : ℚ) ≤ (start + (n : ℚ) * beat) - b.time := by
          intro b hbmem
          obtain ⟨hbt, -⟩ := h2 b hbmem
          rw [hbt]; linarith
        by_cases hdouble : 0 < n ∧ n % 32 = 0 ∧ start + (n : ℚ) * beat + beat / 2 < dur - 0.6
        · rw [if_pos hdouble]
          show chain3 (((buildLoop beat dur start skip seededLane n).notes ++ [_]) ++ [_])
          apply chain3_concat_prev
          · exact chain3_concat_ge _ _ ih fun b hbm => hx b hbm
          · intro b hbm
            exact not_lt.mpr (hx b hbm)
        · rw [if_neg hdouble]
          exact chain3_concat_ge _ _ ih fun b hbm => hx b hbm

lemma chain3_buildChartEasy (skip : Nat → Bool) (seededLane : Nat → Fin 4)
    (bpm offset dur : ℚ) :
    chain3 (buildChartEasy skip seededLane bpm offset dur) := by
  have hbeat : (0 : ℚ) < 60 / max 1 bpm :=
    div_pos (by norm_num) (lt_of_lt_of_le one_pos (le_max_left 1 bpm))
  have hstart : (0 : ℚ) ≤ max 0 offset := le_max_left 0 offset
  exact chain3_buildLoop (60 / max 1 bpm) dur (max 0 offset) skip seededLane hbeat hstart _

lemma chain3_get? : ∀ (l : List Note), chain3 l →
    ∀ (i : Nat) (a b c : Note),
      l.get? i = some a → l.get? (i + 1) = some b → l.get? (i + 2) = some c →
      b.time - a.time < 0.44 → 0.44 ≤ c.time - b.time := by
  intro l
  induction l with
  | nil => intro _ i a b c ha; simp at ha
  | cons x rest ih =>
    intro hc i a b c ha hb hcc
    cases i with
    | succ j =>
      exact ih (chain3_tail x rest hc) j a b c ha hb hcc
    | zero =>
      cases rest with
      | nil => simp at hb
      | cons y rest' =>
        cases rest' with
        | nil => simp at hcc
        | cons z rest'' =>
          have hax : a = x := by
            have : some x = some a := ha
            injection this with h'
            exact h'.symm
          have hby : b = y := by
            have : some y = some b := hb
            injection this with h'
            exact h'.symm
          have hcz : c = z := by
            have : some z = some c := hcc
            injection this with h'
            exact h'.symm
          subst hax
          subst hby
          subst hcz
          exact hc.1

set_option maxHeartbeats 4000000 in
/-- Evaluation of the chart for detected bpm 120, offset 0, duration 20 s,
with the source's sine-hash decisions: 39 loop iterations, an injected
double note at beat index 32 (`t = 16`, double at `t = 16.25`), and two
further notes after the double (`t = 17.5`, `t = 19`). -/
lemma chart_120_0_20_eval :
    buildChartEasy skipSin seededLaneSin 120 0 20 =
      [{ id := "n0", lane := 0, time := 1/2 }, { id := "n1", lane := 3, time := 2 },
       { id := "n2", lane := 2, time := 7/2 }, { id := "n3", lane := 3, time := 5 },
       { id := "n4", lane := 2, time := 6 }, { id := "n5", lane := 0, time := 13/2 },
       { id := "n6", lane := 1, time := 15/2 }, { id := "n7", lane := 2, time := 8 },
       { id := "n8", lane := 1, time := 9 }, { id := "n9", lane := 2, time := 21/2 },
       { id := "n10", lane := 3, time := 12 }, { id := "n11", lane := 1, time := 27/2 },
       { id := "n12", lane := 3, time := 29/2 }, { id := "n13", lane := 2, time := 15 },
       { id := "n14", lane := 3, time := 16 }, { id := "n15", lane := 1, time := 65/4 },
       { id := "n16", lane := 3, time := 35/2 }, { id := "n17", lane := 2, time := 19 }] := by
  have hn : numBeats (max 0 (0 : ℚ)) (60 / max 1 (120 : ℚ)) 20 = 39 := by
    rw [numBeats, Nat.ceil_eq_iff (by norm_num)]
    norm_num
  rw [buildChartEasy, hn]
  norm_num [buildLoop, chartStep, skipSin, skipSinTable, seededLaneSin, laneSinTable]
  repeat' apply And.intro
  all_goals first
  | rfl
  | decide


/-- C7: for every skip/lane decision function (hence in particular for
the source's sine hashes) and all inputs `(bpm, offset, duration)`, the
chart returned by `buildChartEasy` has its notes in non-decreasing
scheduled-time order, including across the injected half-beat "double"
notes. -/
theorem chart_times_nondecreasing (skip : Nat → Bool) (seededLane : Nat → Fin 4)
    (bpm offset dur : ℚ) :
    List.Chain' (fun a b => a.time ≤ b.time)
      (buildChartEasy skip seededLane bpm offset dur) :=
  (buildChartEasy_chain skip seededLane bpm offset dur).imp fun _ _ h => h.1.le

/-- C8: in every chart produced by `buildChartEasy`, consecutive notes
never share a lane — the pick is rotated to the next lane on a repeat —
and this holds across the injected double notes as well (so in
particular for the first regular note after a double). -/
theorem chart_consecutive_lanes_distinct (skip : Nat → Bool) (seededLane : Nat → Fin 4)
    (bpm offset dur : ℚ) :
    List.Chain' (fun a b => a.lane ≠ b.lane)
      (buildChartEasy skip seededLane bpm offset dur) :=
  (buildChartEasy_chain skip seededLane bpm offset dur).imp fun _ _ h => h.2.1

/-- C1 (counterexample): with the source's sine-hash decisions, the chart
for bpm 120, offset 0, duration 17 has two consecutive notes closer than
the 0.44 s minimum gap — the note at `t = 16` and the injected half-beat
double note at `t = 16.25`, which are only `0.25 = beat / 2` apart. -/
theorem chart_min_gap_violated_at_double :
    ¬ List.Chain' (fun a b => (0.44 : ℚ) ≤ b.time - a.time)
      (buildChartEasy skipSin seededLaneSin 120 0 17) := by
  rw [chart_120_0_17_eval]
  intro h
  have := List.chain'_iff_get.mp h 14 (by norm_num)
  norm_num at this

/-- C1 (amended): no two consecutive notes of any chart are closer than
the configured 0.44 s minimum gap, except that a periodically injected
"double" note follows its predecessor by exactly half a beat
(`(60 / max 1 bpm) / 2`, which is below 0.44 s whenever the clamped bpm
exceeds 750/11 ≈ 68.2); and the note emitted after such a double is
again at least 0.44 s away — for any three consecutive notes `a, b, c`,
if `b` follows `a` by less than 0.44 s then `c` follows `b` by at least
0.44 s. -/
theorem chart_min_gap_except_half_beat_double (skip : Nat → Bool)
    (seededLane : Nat → Fin 4) (bpm offset dur : ℚ) :
    List.Chain'
      (fun a b => 0.44 ≤ b.time - a.time ∨ b.time - a.time = (60 / max 1 bpm) / 2)
      (buildChartEasy skip seededLane bpm offset dur)
    ∧ (∀ (i : Nat) (a b c : Note),
        (buildChartEasy skip seededLane bpm offset dur).get? i = some a →
        (buildChartEasy skip seededLane bpm offset dur).get? (i + 1) = some b →
        (buildChartEasy skip seededLane bpm offset dur).get? (i + 2) = some c →
        b.time - a.time < 0.44 → 0.44 ≤ c.time - b.time) :=
  ⟨(buildChartEasy_chain skip seededLane bpm offset dur).imp fun _ _ h => h.2.2,
   chain3_get? _ (chain3_buildChartEasy skip seededLane bpm offset dur)⟩

/-- Witness for the amended C1 theorem: in the chart for (120, 0, 20) the
notes at indices 14, 15, 16 are scheduled at 16 s, 16.25 s (the injected
double, 0.25 s after its predecessor) and 17.5 s — the note after the
double is 1.25 s ≥ 0.44 s away. -/
theorem chart_min_gap_except_half_beat_double_witness :
    (0.44 : ℚ) ≤ ({ id := "n16", lane := 3, time := 35/2 } : Note).time -
      ({ id := "n15", lane := 1, time := 65/4 } : Note).time :=
  (chart_min_gap_except_half_beat_double skipSin seededLaneSin 120 0 20).2 14
    { id := "n14", lane := 3, time := 16 } { id := "n15", lane := 1, time := 65/4 }
    { id := "n16", lane := 3, time := 35/2 }
    (by rw [chart_120_0_20_eval]; rfl) (by rw [chart_120_0_20_eval]; rfl)
    (by rw [chart_120_0_20_eval]; rfl) (by norm_num)

/-- C9 (counterexample): non-positive bpm does not yield an empty chart.
`buildChartEasy` clamps the bpm to 1 internally (`60 / Math.max(1, bpm)`),
so with the source's sine-hash decisions, bpm 0, offset 0 and duration
100 produce a (nonempty) chart with one note at `t = 60`. -/
theorem chart_nonpositive_bpm_not_empty :
    buildChartEasy skipSin seededLaneSin 0 0 100 ≠ [] := by
  have heval : buildChartEasy skipSin seededLaneSin 0 0 100 =
      [{ id := "n0", lane := 0, time := 60 }] := by
    have hn : numBeats (max 0 (0 : ℚ)) (60 / max 1 (0 : ℚ)) 100 = 2 := by
      rw [numBeats, Nat.ceil_eq_iff (by norm_num)]
      norm_num
    rw [buildChartEasy, hn]
    norm_num [buildLoop, chartStep, skipSin, skipSinTable, seededLaneSin, laneSinTable]
    decide
  rw [heval]
  simp

/-- C9 (amended): for zero or negative duration, or any duration too
short for a beat to fall before the 0.6 s safety tail
(`dur - 0.6 ≤ max 0 offset`), `buildChartEasy` returns an empty chart;
being a pure function it never throws and has no side effects.
(Non-positive bpm, by contrast, is clamped to 1 bpm internally and can
still produce a nonempty chart.) -/
theorem chart_empty_of_degenerate_duration (skip : Nat → Bool)
    (seededLane : Nat → Fin 4) (bpm offset dur : ℚ)
    (h : dur - 0.6 ≤ max 0 offset) :
    buildChartEasy skip seededLane bpm offset dur = [] := by
  have hbeat : (0 : ℚ) < 60 / max 1 bpm :=
    div_pos (by norm_num) (lt_of_lt_of_le one_pos (le_max_left 1 bpm))
  have hn : numBeats (max 0 offset) (60 / max 1 bpm) dur = 0 := by
    rw [numBeats]
    rw [Nat.ceil_eq_zero]
    exact div_nonpos_iff.mpr (Or.inr ⟨by linarith, hbeat.le⟩)
  rw [buildChartEasy, hn]
  rfl

/-- Witness for the amended C9 theorem at duration 0. -/
theorem chart_empty_of_degenerate_duration_witness :
    buildChartEasy skipSin seededLaneSin 120 0 0 = [] :=
  chart_empty_of_degenerate_duration skipSin seededLaneSin 120 0 0 (by norm_num)

lemma findHit_some (lane : Fin 4) (t : ℚ) :
    ∀ (l : List Note) (n : Note) (rest : List Note),
      findHit lane t l = some (n, rest) →
      List.find? (hitMatch lane t) l = some n ∧ rest.length + 1 = l.length := by
  intro l
  induction l with
  | nil => intro n rest h; simp [findHit] at h
  | cons m l' ih =>
    intro n rest h
    rw [findHit] at h
    by_cases hbrk : t + HIT_TOL < m.time
    · rw [if_pos hbrk] at h
      exact absurd h (by simp)
    · rw [if_neg hbrk] at h
      by_cases hlane : m.lane ≠ lane
      · rw [if_pos hlane] at h
        obtain ⟨p, hp, hpe⟩ := Option.map_eq_some'.mp h
        injection hpe with hn hrest
        obtain ⟨hf, hl⟩ := ih p.1 p.2 (by rw [hp])
        have hmatch : ¬ hitMatch lane t m = true := by
          simp only [hitMatch, Bool.and_eq_true, decide_eq_true_eq, not_and]
          intro hlm
          exact absurd hlm hlane
        rw [List.find?_cons_of_neg _ hmatch]
        refine ⟨hn ▸ hf, ?_⟩
        rw [← hrest]
        simp only [List.length_cons]
        omega
      · rw [if_neg hlane] at h
        push_neg at hlane
        by_cases htol : |m.time - t| ≤ HIT_TOL
        · rw [if_pos htol] at h
          injection h with h'
          injection h' with hn hrest
          have hmatch : hitMatch lane t m = true := by
            simp [hitMatch, hlane, htol]
          rw [List.find?_cons_of_pos _ hmatch]
          subst hn
          subst hrest
          simp
        · rw [if_neg htol] at h
          obtain ⟨p, hp, hpe⟩ := Option.map_eq_some'.mp h
          injection hpe with hn hrest
          obtain ⟨hf, hl⟩ := ih p.1 p.2 (by rw [hp])
          have hmatch : ¬ hitMatch lane t m = true := by
            simp only [hitMatch, Bool.and_eq_true, decide_eq_true_eq, not_and]
            intro _
            exact htol
          rw [List.find?_cons_of_neg _ hmatch]
          refine ⟨hn ▸ hf, ?_⟩
          rw [← hrest]
          simp only [List.length_cons]
          omega

lemma findHit_none (lane : Fin 4) (t : ℚ) :
    ∀ (l : List Note),
      List.Pairwise (fun a b : Note => a.time ≤ b.time) l →
      findHit lane t l = none →
      List.find? (hitMatch lane t) l = none := by
  intro l
  induction l with
  | nil => intro _ _; rfl
  | cons m l' ih =>
    intro hs h
    rw [findHit] at h
    by_cases hbrk : t + HIT_TOL < m.time
    · -- every note from here on lies beyond t + HIT_TOL, so nothing matches
      rw [List.find?_eq_none]
      intro x hx
      have hxt : t + HIT_TOL < x.time := by
        rcases List.mem_cons.mp hx with hx' | hx'
        · exact hx' ▸ hbrk
        · exact lt_of_lt_of_le hbrk ((List.pairwise_cons.mp hs).1 x hx')
      simp only [hitMatch, Bool.and_eq_true, decide_eq_true_eq, not_and, not_le]
      intro _
      exact lt_of_lt_of_le (by linarith) (le_abs_self _)
    · rw [if_neg hbrk] at h
      by_cases hlane : m.lane ≠ lane
      · rw [if_pos hlane] at h
        have hrec : findHit lane t l' = none := by
          cases hfh : findHit lane t l' with
          | none => rfl
          | some p => rw [hfh] at h; simp at h
        have hmatch : ¬ hitMatch lane t m = true := by
          simp only [hitMatch, Bool.and_eq_true, decide_eq_true_eq, not_and]
          intro hlm
          exact absurd hlm hlane
        rw [List.find?_cons_of_neg _ hmatch]
        exact ih (List.pairwise_cons.mp hs).2 hrec
      · rw [if_neg hlane] at h
        push_neg at hlane
        by_cases htol : |m.time - t| ≤ HIT_TOL
        · rw [if_pos htol] at h
          simp at h
        · rw [if_neg htol] at h
          have hrec : findHit lane t l' = none := by
            cases hfh : findHit lane t l' with
            | none => rfl
            | some p => rw [hfh] at h; simp at h
          have hmatch : ¬ hitMatch lane t m = true := by
            simp only [hitMatch, Bool.and_eq_true, decide_eq_true_eq, not_and]
            intro _
            exact htol
          rw [List.find?_cons_of_neg _ hmatch]
          exact ih (List.pairwise_cons.mp hs).2 hrec

lemma find?_earliest (lane : Fin 4) (t : ℚ) :
    ∀ (l : List Note),
      List.Pairwise (fun a b : Note => a.time ≤ b.time) l →
      ∀ n, List.find? (hitMatch lane t) l = some n →
      ∀ m ∈ l, hitMatch lane t m = true → n.time ≤ m.time := by
  intro l
  induction l with
  | nil => intro _ n h; simp at h
  | cons a l' ih =>
    intro hs n h m hm hmatch
    by_cases ha : hitMatch lane t a = true
    · rw [List.find?_cons_of_pos _ ha] at h
      injection h with hn
      rcases List.mem_cons.mp hm with hm' | hm'
      · rw [← hn, hm']
      · exact hn ▸ (List.pairwise_cons.mp hs).1 m hm'
    · rw [List.find?_cons_of_neg _ ha] at h
      rcases List.mem_cons.mp hm with hm' | hm'
      · exact absurd (hm' ▸ hmatch) ha
      · exact ih (List.pairwise_cons.mp hs).2 n h m hm' hmatch

lemma expireSplit_eq (t : ℚ) : ∀ l : List Note,
    expireSplit t l =
      (l.takeWhile (fun n => decide (n.time < t - MISS_TOL)),
       l.dropWhile (fun n => decide (n.time < t - MISS_TOL))) := by
  intro l
  induction l with
  | nil => rfl
  | cons m l' ih =>
    rw [expireSplit]
    by_cases hm : m.time < t - MISS_TOL
    · rw [if_pos hm, ih, List.takeWhile_cons_of_pos (by simpa using hm),
        List.dropWhile_cons_of_pos (by simpa using hm)]
    · rw [if_neg hm, List.takeWhile_cons_of_neg (by simpa using hm),
        List.dropWhile_cons_of_neg (by simpa using hm)]

lemma takeWhile_time_lt_eq_filter (x : ℚ) : ∀ l : List Note,
    List.Pairwise (fun a b : Note => a.time ≤ b.time) l →
    l.takeWhile (fun n => decide (n.time < x)) =
      l.filter (fun n => decide (n.time < x)) := by
  intro l
  induction l with
  | nil => intro _; rfl
  | cons m l' ih =>
    intro hs
    by_cases hm : m.time < x
    · rw [List.takeWhile_cons_of_pos (by simpa using hm),
        List.filter_cons_of_pos (by simpa using hm), ih (List.pairwise_cons.mp hs).2]
    · rw [List.takeWhile_cons_of_neg (by simpa using hm),
        List.filter_cons_of_neg (by simpa using hm)]
      symm
      rw [List.filter_eq_nil_iff]
      intro a ha
      have hma : m.time ≤ a.time := (List.pairwise_cons.mp hs).1 a ha
      simp only [decide_eq_true_eq, not_lt]
      linarith [not_lt.mp hm]

/-- C2: whenever a press matches a pending note — the engine is ready,
unpaused, not ended, and an (unhit, as all queued notes are) note in the
pressed lane lies within the 0.17 s hit tolerance, with `n` the first
such note in queue order — the score grows by exactly
`max(10, round(140 * (1 - timingError / 0.17)))` times the multiplier of
the current combo, and hits and combo each grow by exactly 1. -/
theorem hit_scoring (s : EngineState) (lane : Fin 4) (n : Note)
    (hs : List.Pairwise (fun a b : Note => a.time ≤ b.time) s.notes)
    (_hclean : ∀ m ∈ s.notes, m.hit = false)
    (hready : s.ready = true) (hpause : s.paused = false) (hend : s.ended = false)
    (hfind : List.find? (hitMatch lane s.songTime) s.notes = some n) :
    (attemptHit lane s).1.score =
      s.score + max 10 (jsRound (140 * (1 - |n.time - s.songTime| / HIT_TOL))) *
        (multiplier s.combo : ℤ)
    ∧ (attemptHit lane s).1.hits = s.hits + 1
    ∧ (attemptHit lane s).1.combo = s.combo + 1 := by
  cases hfh : findHit lane s.songTime s.notes with
  | none =>
    rw [findHit_none lane s.songTime s.notes hs hfh] at hfind
    exact absurd hfind (by simp)
  | some p =>
    obtain ⟨hf, -⟩ := findHit_some lane s.songTime s.notes p.1 p.2 (by rw [hfh])
    have hn : p.1 = n := by
      have := hf.symm.trans hfind
      injection this
    refine ⟨?_, ?_, ?_⟩ <;>
      simp [attemptHit, hready, hpause, hend, hfh, hn]

/-- C3: a press on a lane while ready, unpaused and not ended yields
exactly one judgment (success or fail) and consumes at most one note,
and a successful press consumes precisely the first matching note of the
sorted queue — the one with the earliest scheduled time among all
matching notes; a press while not ready, paused, or ended changes
nothing. -/
theorem press_one_judgment (s : EngineState) (lane : Fin 4)
    (hs : List.Pairwise (fun a b : Note => a.time ≤ b.time) s.notes) :
    ((s.ready = true ∧ s.paused = false ∧ s.ended = false) →
      ((attemptHit lane s).2.isSome = true
       ∧ ((attemptHit lane s).1.notes = s.notes ∨
            (attemptHit lane s).1.notes.length + 1 = s.notes.length)
       ∧ ∀ n, (attemptHit lane s).2 = some (Judgment.success n) →
           List.find? (hitMatch lane s.songTime) s.notes = some n
           ∧ ∀ m ∈ s.notes, hitMatch lane s.songTime m = true → n.time ≤ m.time))
    ∧ (¬(s.ready = true ∧ s.paused = false ∧ s.ended = false) →
        attemptHit lane s = (s, none)) := by
  constructor
  · rintro ⟨hr, hp, he⟩
    cases hfh : findHit lane s.songTime s.notes with
    | none =>
      refine ⟨by simp [attemptHit, hr, hp, he, hfh], Or.inl (by simp [attemptHit, hr, hp, he, hfh]), ?_⟩
      intro n hn
      simp [attemptHit, hr, hp, he, hfh] at hn
    | some p =>
      obtain ⟨hf, hl⟩ := findHit_some lane s.songTime s.notes p.1 p.2 (by rw [hfh])
      refine ⟨by simp [attemptHit, hr, hp, he, hfh], Or.inr ?_, ?_⟩
      · have hnotes : (attemptHit lane s).1.notes = p.2 := by
          simp [attemptHit, hr, hp, he, hfh]
        rw [hnotes, hl]
      · intro n hn
        have hjud : (attemptHit lane s).2 = some (Judgment.success p.1) := by
          simp [attemptHit, hr, hp, he, hfh]
        rw [hjud] at hn
        injection hn with hn'
        injection hn' with hn2
        rw [← hn2]
        exact ⟨hf, find?_earliest lane s.songTime s.notes hs p.1 hf⟩
  · intro hguard
    cases hrb : s.ready with
    | false => simp [attemptHit, hrb]
    | true =>
      cases hpb : s.paused with
      | true => simp [attemptHit, hpb]
      | false =>
        cases heb : s.ended with
        | true => simp [attemptHit, heb]
        | false => exact absurd ⟨hrb, hpb, heb⟩ hguard

/-- C5: the multiplier is a pure step function of the combo alone —
16 for combo ≥ 18, 8 on [14, 18), 4 on [10, 14), 2 on [6, 10) and 1
below 6 (the `c % 4` / `c % 6` arguments range over exactly those
bands) — it coincides with the spec-worded `multiplierSpec`, and streak
mode is exactly the test `18 ≤ combo`.  Both are recomputed from combo
on every read, never stored. -/
theorem multiplier_pure_bands (c : Nat) :
    multiplier (18 + c) = 16
    ∧ multiplier (14 + c % 4) = 8
    ∧ multiplier (10 + c % 4) = 4
    ∧ multiplier (6 + c % 4) = 2
    ∧ multiplier (c % 6) = 1
    ∧ multiplier c = multiplierSpec c
    ∧ streakMode c = decide (18 ≤ c) := by
  have h4 : c % 4 < 4 := Nat.mod_lt _ (by norm_num)
  have h6 : c % 6 < 6 := Nat.mod_lt _ (by norm_num)
  refine ⟨?_, ?_, ?_, ?_, ?_, rfl, rfl⟩ <;>
    · unfold multiplier
      split_ifs <;> omega

/-- C6: every miss sets the combo to 0 and adds exactly 1 to the miss
count — during a frame advance each unhit note older than the 0.22 s
miss tolerance is counted (combo becomes 0 exactly when at least one
expired), and a press that matches no note in tolerance resets combo to
0 and increments misses by 1. -/
theorem miss_resets_combo (s : EngineState) (c : ℚ) (lane : Fin 4)
    (hs : List.Pairwise (fun a b : Note => a.time ≤ b.time) s.notes) :
    ((s.started = true → s.paused = false → s.hasAudio = true →
      (tick c s).misses = s.misses +
        ((s.notes.filter fun n =>
            decide (n.time < max 0 (c - s.startAcTime) - MISS_TOL)).filter
          fun n => !n.hit).length
      ∧ (tick c s).combo =
          (if 0 < ((s.notes.filter fun n =>
              decide (n.time < max 0 (c - s.startAcTime) - MISS_TOL)).filter
            fun n => !n.hit).length then 0 else s.combo)))
    ∧ (s.ready = true → s.paused = false → s.ended = false →
       List.find? (hitMatch lane s.songTime) s.notes = none →
       (attemptHit lane s).1.combo = 0 ∧ (attemptHit lane s).1.misses = s.misses + 1) := by
  constructor
  · intro hstart hpause haudio
    rw [tick, hstart, hpause]
    rw [haudio]
    simp only [Bool.not_true, Bool.false_eq_true, if_false]
    rw [expireSplit_eq, takeWhile_time_lt_eq_filter _ _ hs]
    exact ⟨rfl, rfl⟩
  · intro hready hpause hend hfind
    have hfh : findHit lane s.songTime s.notes = none := by
      cases hfh : findHit lane s.songTime s.notes with
      | none => rfl
      | some p =>
        obtain ⟨hf, -⟩ := findHit_some lane s.songTime s.notes p.1 p.2 (by rw [hfh])
        rw [hfind] at hf
        exact absurd hf (by simp)
    constructor <;> simp [attemptHit, hready, hpause, hend, hfh]

/-- C10: the score is monotone across every engine operation — frame
advance, pause and resume leave it unchanged, a press never lowers it,
and a successful hit raises it by at least 10 (the base component is
floored at 10 and the multiplier is at least 1). -/
theorem score_never_decreases (s : EngineState) (lane : Fin 4) (c : ℚ) :
    (tick c s).score = s.score
    ∧ (pauseGame s).score = s.score
    ∧ (resumeGame c s).score = s.score
    ∧ s.score ≤ (attemptHit lane s).1.score
    ∧ (∀ n, (attemptHit lane s).2 = some (Judgment.success n) →
        s.score + 10 ≤ (attemptHit lane s).1.score) := by
  have hmul : ∀ k : Nat, 1 ≤ multiplier k := by
    intro k
    unfold multiplier
    split_ifs <;> norm_num
  refine ⟨?_, ?_, ?_, ?_, ?_⟩
  · rw [tick]
    split_ifs <;> rfl
  · rw [pauseGame]
    split_ifs <;> rfl
  · simp only [resumeGame, startSourceAt]
    split_ifs <;> rfl
  · cases hrb : (!s.ready || s.paused || s.ended) with
    | true => simp [attemptHit, hrb]
    | false =>
      cases hfh : findHit lane s.songTime s.notes with
      | none => simp [attemptHit, hrb, hfh]
      | some p =>
        have hb : (10 : ℤ) ≤ max 10 (jsRound (140 * (1 - |p.1.time - s.songTime| / HIT_TOL))) :=
          le_max_left _ _
        have hm : (1 : ℤ) ≤ (multiplier s.combo : ℤ) := by exact_mod_cast hmul s.combo
        have hprod : (10 : ℤ) ≤ max 10 (jsRound (140 * (1 - |p.1.time - s.songTime| / HIT_TOL))) *
            (multiplier s.combo : ℤ) := by nlinarith
        have : (attemptHit lane s).1.score = s.score +
            max 10 (jsRound (140 * (1 - |p.1.time - s.songTime| / HIT_TOL))) *
              (multiplier s.combo : ℤ) := by
          simp [attemptHit, hrb, hfh]
        rw [this]
        linarith
  · intro n hn
    cases hrb : (!s.ready || s.paused || s.ended) with
    | true => rw [attemptHit] at hn; rw [if_pos hrb] at hn; exact absurd hn (by simp)
    | false =>
      cases hfh : findHit lane s.songTime s.notes with
      | none =>
        have : (attemptHit lane s).2 = some Judgment.fail := by
          simp [attemptHit, hrb, hfh]
        rw [this] at hn
        exact absurd hn (by simp)
      | some p =>
        have hb : (10 : ℤ) ≤ max 10 (jsRound (140 * (1 - |p.1.time - s.songTime| / HIT_TOL))) :=
          le_max_left _ _
        have hm : (1 : ℤ) ≤ (multiplier s.combo : ℤ) := by exact_mod_cast hmul s.combo
        have hprod : (10 : ℤ) ≤ max 10 (jsRound (140 * (1 - |p.1.time - s.songTime| / HIT_TOL))) *
            (multiplier s.combo : ℤ) := by nlinarith
        have hsc : (attemptHit lane s).1.score = s.score +
            max 10 (jsRound (140 * (1 - |p.1.time - s.songTime| / HIT_TOL))) *
              (multiplier s.combo : ℤ) := by
          simp [attemptHit, hrb, hfh]
        rw [hsc]
        linarith

/-- C4: pausing at song time `T` and resuming at an arbitrary later
audio-clock time `c1` (so after an arbitrary wall-clock pause) re-anchors
the clock reference so that when the clock feed has advanced by `d`
beyond the scheduled resume point `c1 + 0.06`, the song time is exactly
`T + d` — the wall-clock length of the pause never enters.  Needs
`0 ≤ T ≤ duration - 0.01` so the source-offset clamp is the identity. -/
theorem pause_resume_continuity (s : EngineState) (c1 d : ℚ)
    (hstart : s.started = true) (hend : s.ended = false) (hpause : s.paused = false)
    (hsrc : s.sourceActive = true) (haudio : s.hasAudio = true)
    (hT0 : 0 ≤ s.songTime) (hT1 : s.songTime ≤ s.duration - 0.01) (hd : 0 ≤ d) :
    (tick (c1 + 0.06 + d) (resumeGame c1 (pauseGame s))).songTime = s.songTime + d := by
  have hp : pauseGame s =
      { s with pausedSongTime := s.songTime, paused := true, sourceActive := false } := by
    simp [pauseGame, hstart, hend, hpause, hsrc]
  have hclamp : clamp s.songTime 0 (max 0 (s.duration - 0.01)) = s.songTime := by
    rw [clamp, min_eq_right (le_trans hT1 (le_max_right 0 _)), max_eq_right hT0]
  have hr : resumeGame c1 (pauseGame s) =
      { s with pausedSongTime := s.songTime,
               startAcTime := c1 + 0.06 - s.songTime,
               sourceActive := true, paused := false, ready := true } := by
    rw [hp]
    simp [resumeGame, startSourceAt, hstart, hend, haudio, hclamp]
  rw [hr, tick]
  simp only [hstart, haudio, Bool.not_true, Bool.false_eq_true, if_false]
  have harith : (c1 + 0.06 + d) - (c1 + 0.06 - s.songTime) = s.songTime + d := by ring
  show max 0 ((c1 + 0.06 + d) - (c1 + 0.06 - s.songTime)) = s.songTime + d
  rw [harith, max_eq_right (by linarith)]

lemma sampleState_note_abs : |(2 : ℚ) - sampleState.songTime| = 1/20 := by
  show |(2 : ℚ) - 41/20| = 1/20
  rw [abs_of_nonpos (by norm_num)]
  norm_num

lemma sampleState_find :
    List.find? (hitMatch 0 sampleState.songTime) sampleState.notes =
      some { id := "n0", lane := 0, time := 2 } := by
  have hm : hitMatch 0 sampleState.songTime { id := "n0", lane := 0, time := 2 } = true := by
    rw [hitMatch]
    simp only [Bool.and_eq_true, decide_eq_true_eq]
    refine ⟨by trivial, ?_⟩
    show |(2 : ℚ) - sampleState.songTime| ≤ HIT_TOL
    rw [sampleState_note_abs]
    norm_num [HIT_TOL]
  have hnotes : sampleState.notes = [{ id := "n0", lane := 0, time := 2 }] := rfl
  rw [hnotes, List.find?_cons_of_pos _ hm]

/-- Witness for C2 at the concrete `sampleState` (note at `t = 2`,
press at song time `2.05`). -/
theorem hit_scoring_witness :
    (attemptHit 0 sampleState).1.score =
      sampleState.score +
        max 10 (jsRound (140 * (1 - |(2 : ℚ) - sampleState.songTime| / HIT_TOL))) *
          (multiplier sampleState.combo : ℤ)
    ∧ (attemptHit 0 sampleState).1.hits = sampleState.hits + 1
    ∧ (attemptHit 0 sampleState).1.combo = sampleState.combo + 1 :=
  hit_scoring sampleState 0 { id := "n0", lane := 0, time := 2 }
    (by simp [sampleState]) (by simp [sampleState]) rfl rfl rfl sampleState_find

/-- Witness for C3 at the concrete `sampleState`. -/
theorem press_one_judgment_witness :
    ((sampleState.ready = true ∧ sampleState.paused = false ∧ sampleState.ended = false) →
      ((attemptHit 0 sampleState).2.isSome = true
       ∧ ((attemptHit 0 sampleState).1.notes = sampleState.notes ∨
            (attemptHit 0 sampleState).1.notes.length + 1 = sampleState.notes.length)
       ∧ ∀ n, (attemptHit 0 sampleState).2 = some (Judgment.success n) →
           List.find? (hitMatch 0 sampleState.songTime) sampleState.notes = some n
           ∧ ∀ m ∈ sampleState.notes, hitMatch 0 sampleState.songTime m = true →
               n.time ≤ m.time))
    ∧ (¬(sampleState.ready = true ∧ sampleState.paused = false ∧ sampleState.ended = false) →
        attemptHit 0 sampleState = (sampleState, none)) :=
  press_one_judgment sampleState 0 (by simp [sampleState])

/-- Witness for C6: at clock reading 3 the pending note of
`sampleState` (scheduled at `t = 2`) is expired and counted. -/
theorem miss_resets_combo_witness :
    (tick 3 sampleState).misses = sampleState.misses +
      ((sampleState.notes.filter fun n =>
          decide (n.time < max 0 (3 - sampleState.startAcTime) - MISS_TOL)).filter
        fun n => !n.hit).length
    ∧ (tick 3 sampleState).combo =
        (if 0 < ((sampleState.notes.filter fun n =>
            decide (n.time < max 0 (3 - sampleState.startAcTime) - MISS_TOL)).filter
          fun n => !n.hit).length then 0 else sampleState.combo) :=
  (miss_resets_combo sampleState 3 0 (by simp [sampleState])).1 rfl rfl rfl

/-- Witness for C10 at the concrete `sampleState`. -/
theorem score_never_decreases_witness :
    (tick 3 sampleState).score = sampleState.score
    ∧ (pauseGame sampleState).score = sampleState.score
    ∧ (resumeGame 3 sampleState).score = sampleState.score
    ∧ sampleState.score ≤ (attemptHit 0 sampleState).1.score
    ∧ (∀ n, (attemptHit 0 sampleState).2 = some (Judgment.success n) →
        sampleState.score + 10 ≤ (attemptHit 0 sampleState).1.score) :=
  score_never_decreases sampleState 0 3

/-- Witness for C4: pause `sampleState` at song time `2.05`, resume at
clock 5, advance 2 s past the scheduled resume point. -/
theorem pause_resume_continuity_witness :
    (tick (5 + 0.06 + 2) (resumeGame 5 (pauseGame sampleState))).songTime =
      sampleState.songTime + 2 :=
  pause_resume_continuity sampleState 5 2 rfl rfl rfl rfl rfl
    (by norm_num [sampleState]) (by norm_num [sampleState]) (by norm_num)


end BirthdayCake
